import Mathlib

/-!
Verification development for the continuous polling / change-reconciliation
engine of `xbet_scraper.py`.

Python dicts (raw match records and stored entities) are modelled as
association lists from field name to string value in insertion order;
dict assignment replaces the value of an existing key in place and appends
a fresh key at the end, exactly like CPython dicts.  The mutating merge
`update_match_odds` is modelled as a function returning the updated entity;
the `KeyError` raised by `existing_match['timestamp'] = new_match['timestamp']`
when the incoming record lacks a timestamp is modelled by `Option` (the
exception aborts the enclosing update cycle).  The per-cycle merge loop of
`run_continuous_updates` (lines 894-928) is modelled by `reconcile`, with
the id lookup map built once from the store before the loop (later
duplicates winning in the map, hence `lastIdxOf`).
-/

/-- A raw match record or stored entity: a Python dict modelled as an
association list from field name to string value, in insertion order. -/
abbrev Record := List (String × String)

/-- Dict lookup: the value at the first occurrence of the key. -/
def alget {α : Type} : List (String × α) → String → Option α
  | [], _ => none
  | (k', v') :: rest, k => if k' = k then some v' else alget rest k

/-- Dict assignment: replace the value at an existing key in place,
otherwise append the new pair at the end (CPython dict semantics). -/
def alset {α : Type} : List (String × α) → String → α → List (String × α)
  | [], k, v => [(k, v)]
  | (k', v') :: rest, k, v =>
      if k' = k then (k, v) :: rest else (k', v') :: alset rest k v

/-- Keys of a record are pairwise distinct; Python dicts guarantee this
for every record produced by the parsers. -/
def keysNodup {α : Type} (r : List (String × α)) : Prop :=
  (r.map Prod.fst).Nodup

instance {α : Type} (r : List (String × α)) : Decidable (keysNodup r) := by
  unfold keysNodup; infer_instance

/-- The keys handled individually by `update_match_odds` before its generic
field loop; the loop skips them (`if key in [...]: continue`). -/
def skipKeys : List String := ["timestamp", "score", "scores", "status", "match_id"]

/-- Python `str.startswith`, modelled on the character list so that it
evaluates inside the kernel. -/
def strStartsWith (s p : String) : Bool := p.data.isPrefixOf s.data

/-- One iteration of the `for key, value in new_match.items()` loop of
`update_match_odds` (src lines 664-678): odds fields are overwritten on
difference and set the change flag; every other non-skipped field is
overwritten on difference without touching the flag. -/
def updOther (acc : Record × Bool) (kv : String × String) : Record × Bool :=
  if kv.1 ∈ skipKeys then acc
  else if strStartsWith kv.1 "odd_" then
    if alget acc.1 kv.1 = some kv.2 then acc else (alset acc.1 kv.1 kv.2, true)
  else if alget acc.1 kv.1 = some kv.2 then acc else (alset acc.1 kv.1 kv.2, acc.2)

/-- The `score` block of `update_match_odds` (src lines 647-652): overwrite
on difference and set the change flag. -/
def stepScore (new : Record) (acc : Record × Bool) : Record × Bool :=
  match alget new "score" with
  | some v => if alget acc.1 "score" = some v then acc else (alset acc.1 "score" v, true)
  | none => acc

/-- The `scores` block of `update_match_odds` (src lines 654-657): overwrite
on difference WITHOUT setting the change flag. -/
def stepScores (new : Record) (acc : Record × Bool) : Record × Bool :=
  match alget new "scores" with
  | some v => if alget acc.1 "scores" = some v then acc else (alset acc.1 "scores" v, acc.2)
  | none => acc

/-- The `status` block of `update_match_odds` (src lines 659-662): overwrite
on difference and set the change flag. -/
def stepStatus (new : Record) (acc : Record × Bool) : Record × Bool :=
  match alget new "status" with
  | some v => if alget acc.1 "status" = some v then acc else (alset acc.1 "status" v, true)
  | none => acc

/-- `update_match_odds(existing_match, new_match)` (src lines 639-680):
unconditionally copies the timestamp, merges score / scores / status and
then every remaining field, and returns the updated entity together with
the `odds_changed` flag.  `none` models the `KeyError` raised when the
incoming record has no `timestamp`. -/
def update_match_odds (existing new : Record) : Option (Record × Bool) :=
  match alget new "timestamp" with
  | none => none
  | some ts =>
      some (List.foldl updOther
        (stepStatus new (stepScores new (stepScore new (alset existing "timestamp" ts, false))))
        new)

/-- Index of the LAST record in the store whose `match_id` equals `id`:
the entry that `live_map = \x7bmatch['match_id']: match for match in ...\x7d`
(src line 895) resolves the id to, since later comprehension entries win. -/
def lastIdxOf : List Record → String → Option Nat
  | [], _ => none
  | r :: rest, id =>
    match lastIdxOf rest id with
    | some i => some (i + 1)
    | none => if alget r "match_id" = some id then some 0 else none

/-- One iteration of the per-snapshot-record loop of `run_continuous_updates`
(src lines 904-915): records without a `match_id` are skipped; records whose
id is in the pre-built map merge into that store entry (collecting the id in
the changed list when the merge reports a change); all other records are
appended both to the new-matches list and to the store. -/
def reconcileStep (orig : List Record) (acc : List Record × List String × List Record)
    (r : Record) : Option (List Record × List String × List Record) :=
  match alget r "match_id" with
  | none => some acc
  | some id =>
    match lastIdxOf orig id with
    | some i =>
        match update_match_odds (acc.1.getD i []) r with
        | none => none
        | some (e', ch) =>
            some (acc.1.set i e', (if ch then acc.2.1 ++ [id] else acc.2.1), acc.2.2)
    | none => some (acc.1 ++ [r], acc.2.1, acc.2.2 ++ [r])

/-- Reconciling one snapshot into a store: returns the mutated store, the
ids of entities reported changed, and the created records, or `none` when
an update raised (aborting the cycle). -/
def reconcile (store snap : List Record) : Option (List Record × List String × List Record) :=
  snap.foldlM (reconcileStep store) (store, [], [])

/-- The ids present in a store or snapshot, in order, duplicates kept. -/
def idsOf (l : List Record) : List String :=
  l.filterMap (fun r => alget r "match_id")

/-- Ids of snapshot records that are not resolved by the store's lookup map,
i.e. the ids the reconcile loop will create entities for. -/
def newIds (store snap : List Record) : List String :=
  (idsOf snap).filter (fun id => (lastIdxOf store id).isNone)

/-- Python string comparison `a < b` on character code points, lexicographic;
`"%Y-%m-%d %H:%M:%S"` timestamps compare chronologically under it. -/
def charListLt : List Char → List Char → Bool
  | _, [] => false
  | [], _ :: _ => true
  | c :: cs, d :: ds =>
      if c.toNat < d.toNat then true
      else if d.toNat < c.toNat then false
      else charListLt cs ds

/-- Python `a < b` on strings. -/
def strLt (a b : String) : Bool := charListLt a.data b.data

/-- The in-memory retention trim of `cleanup_old_data` (src lines 762-777),
applied to one event list: keep a record when it has no timestamp or its
timestamp is strictly greater than the cutoff string. -/
def cleanup_events (events : List Record) (cutoff_str : String) : List Record :=
  if events = [] then events
  else events.filter (fun m =>
    match alget m "timestamp" with
    | none => true
    | some ts => strLt cutoff_str ts)

/-- The match id derivation shared by `parse_live_events` (src lines 349-353)
and `parse_upcoming_events` (src lines 540-544): identity-based when both
team names were extracted, positional fallback otherwise. -/
def compute_match_id (sport_name league_name : String) (match_data : Record)
    (idx : Nat) : String :=
  match alget match_data "team1", alget match_data "team2" with
  | some t1, some t2 => sport_name ++ "_" ++ league_name ++ "_" ++ t1 ++ "_" ++ t2
  | _, _ => sport_name ++ "_" ++ league_name ++ "_" ++ toString idx

/-- Outcome of one iteration of the main update loop: the fetch returned no
content, the fetch succeeded but a later statement of the cycle raised an
unexpected error, or the cycle completed without error. -/
inductive CycleOutcome
  | fetchFailed
  | cycleError
  | success
deriving DecidableEq

/-- `max_consecutive_errors` (src line 806). -/
def max_consecutive_errors : Nat := 5

/-- The consecutive-failure bookkeeping of one loop iteration of
`run_continuous_updates`, with the reset-the-driver instruction as the
boolean output.  Fetch returned no content (src lines 871-885): increment,
and at the threshold tear down the driver WITHOUT resetting the counter.
Unexpected error during the cycle: the handler at src lines 986-1003 is
reachable only after the fetch succeeded, and `consecutive_errors = 0`
(src line 888) runs before any statement that can raise into it
(`get_page_content` catches its own exceptions and returns no content
instead, src lines 207-211 and 253-262); the handler therefore increments
the already-reset counter `0` and tests it against the threshold, always
ending at 1 with no teardown.  Successful cycle (src line 888): reset the
counter. -/
def stepFailures (consecutive_errors : Nat) (o : CycleOutcome) : Nat × Bool :=
  match o with
  | CycleOutcome.success => (0, false)
  | CycleOutcome.fetchFailed =>
      if max_consecutive_errors ≤ consecutive_errors + 1
      then (consecutive_errors + 1, true) else (consecutive_errors + 1, false)
  | CycleOutcome.cycleError =>
      if max_consecutive_errors ≤ 0 + 1
      then (0, true) else (0 + 1, false)

/-- Run the failure bookkeeping over a sequence of cycle outcomes, counting
the emitted driver-reset instructions; state is (counter, resets so far). -/
def runFailures (st : Nat × Nat) (os : List CycleOutcome) : Nat × Nat :=
  os.foldl (fun st o =>
    ((stepFailures st.1 o).1, st.2 + (if (stepFailures st.1 o).2 then 1 else 0))) st

/-- A CSV file on disk: whether it starts with a header row, and its data
rows (row encoding is out of scope; rows are the records themselves). -/
abbrev CsvFile := Bool × List Record

/-- The data directory as seen by the CSV writer: path to file content. -/
abbrev CsvFS := List (String × CsvFile)

/-- The data directory as seen by the JSON writer: path to the array of
records last written. -/
abbrev JsonFS := List (String × List Record)

/-- `save_to_csv` (src lines 682-704): with no data, return before touching
the filesystem; otherwise append rows (creating the file with a header when
absent) or truncate-write the file with a header. -/
def save_to_csv (data_dir : String) (data : List Record) (filename : String)
    (app : Bool) (fs : CsvFS) : CsvFS :=
  if data = [] then fs
  else
    let filepath := data_dir ++ "/" ++ filename
    if app then
      match alget fs filepath with
      | some file => alset fs filepath (file.1, file.2 ++ data)
      | none => alset fs filepath (true, data)
    else alset fs filepath (true, data)

/-- `save_to_json` (src lines 706-720): with no data, return before touching
the filesystem; otherwise overwrite the file with the full record array. -/
def save_to_json (data_dir : String) (data : List Record) (filename : String)
    (fs : JsonFS) : JsonFS :=
  if data = [] then fs
  else alset fs (data_dir ++ "/" ++ filename) data

/-- Two entities carry the same match id. -/
def sameId (a b : Record) : Prop := alget a "match_id" = alget b "match_id"

/-- `r` is fully absorbed in store `st`: the store entry that the lookup
map resolves the id of `r` to carries every field value of `r`. -/
def Absorbed (st : List Record) (r : Record) : Prop :=
  ∀ id, alget r "match_id" = some id →
    ∃ i, lastIdxOf st id = some i ∧
      ∀ k v, alget r k = some v → alget (st.getD i []) k = some v

/-! ### Association list lemmas -/

theorem alget_alset_self {α : Type} (l : List (String × α)) (k : String) (v : α) :
    alget (alset l k v) k = some v := by
  induction l with
  | nil => simp [alget, alset]
  | cons a rest ih =>
      obtain ⟨ak, av⟩ := a
      by_cases h : ak = k
      · simp [alset, alget, h]
      · simp [alset, alget, h, ih]

theorem alget_alset_ne {α : Type} (l : List (String × α)) (k k' : String) (v : α)
    (h : k' ≠ k) : alget (alset l k v) k' = alget l k' := by
  induction l with
  | nil => simp [alget, alset, Ne.symm h]
  | cons a rest ih =>
      obtain ⟨ak, av⟩ := a
      by_cases ha : ak = k
      · subst ha
        simp [alset, alget, Ne.symm h, h]
      · by_cases ha' : ak = k'
        · subst ha'
          simp [alset, alget, h, ha]
        · simp [alset, alget, ha, ha', ih]

theorem alset_self {α : Type} (l : List (String × α)) (k : String) (v : α)
    (h : alget l k = some v) : alset l k v = l := by
  induction l with
  | nil => simp [alget] at h
  | cons a rest ih =>
      obtain ⟨ak, av⟩ := a
      by_cases ha : ak = k
      · subst ha
        simp [alget] at h
        simp [alset, h]
      · simp [alget, ha] at h
        simp [alset, ha, ih h]

theorem alget_none_iff {α : Type} (l : List (String × α)) (k : String) :
    alget l k = none ↔ k ∉ l.map Prod.fst := by
  induction l with
  | nil => simp [alget]
  | cons a rest ih =>
      obtain ⟨ak, av⟩ := a
      by_cases ha : ak = k
      · subst ha
        simp [alget]
      · simp [alget, ha, ih, Ne.symm ha]

theorem mem_of_alget_eq_some {α : Type} (l : List (String × α)) (k : String) (v : α)
    (h : alget l k = some v) : (k, v) ∈ l := by
  induction l with
  | nil => simp [alget] at h
  | cons a rest ih =>
      obtain ⟨ak, av⟩ := a
      by_cases ha : ak = k
      · subst ha
        simp [alget] at h
        simp [h]
      · simp [alget, ha] at h
        exact List.mem_cons_of_mem _ (ih h)

theorem alget_of_mem_nodup {α : Type} (l : List (String × α)) (k : String) (v : α)
    (hn : keysNodup l) (h : (k, v) ∈ l) : alget l k = some v := by
  induction l with
  | nil => simp at h
  | cons a rest ih =>
      obtain ⟨ak, av⟩ := a
      unfold keysNodup at hn
      simp only [List.map_cons, List.nodup_cons] at hn
      rcases List.mem_cons.mp h with h | h
      · have hk := congrArg Prod.fst h
        have hv := congrArg Prod.snd h
        simp only [] at hk hv
        subst hk; subst hv
        simp [alget]
      · have hk : ak ≠ k := by
          intro he
          exact hn.1 (he ▸ (List.mem_map.mpr ⟨(k, v), h, rfl⟩))
        simp [alget, hk]
        exact ih hn.2 h

/-! ### List index helpers -/

theorem lgetD_set_self {α : Type} (l : List α) (i : Nat) (x d : α)
    (h : i < l.length) : (l.set i x).getD i d = x := by
  induction l generalizing i with
  | nil => simp at h
  | cons a rest ih =>
      cases i with
      | zero => simp
      | succ j =>
          simp only [List.set_cons_succ, List.getD_cons_succ]
          exact ih j (by simpa using h)

theorem lgetD_set_ne {α : Type} (l : List α) (i j : Nat) (x d : α)
    (h : i ≠ j) : (l.set i x).getD j d = l.getD j d := by
  induction l generalizing i j with
  | nil => simp
  | cons a rest ih =>
      cases i with
      | zero =>
          cases j with
          | zero => exact absurd rfl h
          | succ j' => simp
      | succ i' =>
          cases j with
          | zero => simp
          | succ j' =>
              simp only [List.set_cons_succ, List.getD_cons_succ]
              exact ih i' j' (fun he => h (by rw [he]))

theorem lset_getD_self {α : Type} (l : List α) (i : Nat) (d : α)
    (h : i < l.length) : l.set i (l.getD i d) = l := by
  induction l generalizing i with
  | nil => simp at h
  | cons a rest ih =>
      cases i with
      | zero => simp
      | succ j =>
          simp only [List.getD_cons_succ, List.set_cons_succ]
          rw [ih j (by simpa using h)]

theorem ltake_set {α : Type} (l : List α) (i n : Nat) (x : α)
    (h : i < n) : (l.set i x).take n = (l.take n).set i x := by
  induction l generalizing i n with
  | nil => simp
  | cons a rest ih =>
      cases i with
      | zero =>
          cases n with
          | zero => simp at h
          | succ m => simp
      | succ j =>
          cases n with
          | zero => simp at h
          | succ m =>
              simp only [List.set_cons_succ, List.take_succ_cons]
              rw [ih j m (by omega)]

theorem ldrop_set {α : Type} (l : List α) (i n : Nat) (x : α)
    (h : i < n) : (l.set i x).drop n = l.drop n := by
  induction l generalizing i n with
  | nil => simp
  | cons a rest ih =>
      cases i with
      | zero =>
          cases n with
          | zero => simp at h
          | succ m => simp
      | succ j =>
          cases n with
          | zero => simp at h
          | succ m =>
              simp only [List.set_cons_succ, List.drop_succ_cons]
              exact ih j m (by omega)

theorem lgetD_take {α : Type} (l : List α) (i n : Nat) (d : α)
    (h : i < n) : (l.take n).getD i d = l.getD i d := by
  induction l generalizing i n with
  | nil => simp
  | cons a rest ih =>
      cases i with
      | zero =>
          cases n with
          | zero => simp at h
          | succ m => simp
      | succ j =>
          cases n with
          | zero => simp at h
          | succ m =>
              simp only [List.take_succ_cons, List.getD_cons_succ]
              exact ih j m (by omega)

theorem lgetD_append_left {α : Type} (l₁ l₂ : List α) (i : Nat) (d : α)
    (h : i < l₁.length) : (l₁ ++ l₂).getD i d = l₁.getD i d := by
  induction l₁ generalizing i with
  | nil => simp at h
  | cons a rest ih =>
      cases i with
      | zero => simp
      | succ j =>
          simp only [List.cons_append, List.getD_cons_succ]
          exact ih j (by simpa using h)

theorem lgetD_append_self {α : Type} (l : List α) (x d : α) :
    (l ++ [x]).getD l.length d = x := by
  induction l with
  | nil => simp
  | cons a rest ih => simp [ih]

theorem lset_append_left {α : Type} (l₁ l₂ : List α) (i : Nat) (x : α)
    (h : i < l₁.length) : (l₁ ++ l₂).set i x = l₁.set i x ++ l₂ := by
  induction l₁ generalizing i with
  | nil => simp at h
  | cons a rest ih =>
      cases i with
      | zero => simp
      | succ j =>
          simp only [List.cons_append, List.set_cons_succ]
          rw [ih j (by simpa using h)]

theorem forall2_getD {α β : Type} {R : α → β → Prop} {l : List α} {l' : List β}
    (h : List.Forall₂ R l l') (i : Nat) (d : α) (d' : β) (hi : i < l.length) :
    R (l.getD i d) (l'.getD i d') := by
  induction h generalizing i with
  | nil => simp at hi
  | cons hR hrest ih =>
      cases i with
      | zero => simpa using hR
      | succ j =>
          simp only [List.getD_cons_succ]
          exact ih j (by simpa using hi)

theorem forall2_set_right {α β : Type} {R : α → β → Prop} {l : List α} {l' : List β}
    (h : List.Forall₂ R l l') (i : Nat) (x : β) (d : α)
    (hx : R (l.getD i d) x) : List.Forall₂ R l (l'.set i x) := by
  induction h generalizing i with
  | nil => simp [List.Forall₂.nil]
  | cons hR hrest ih =>
      cases i with
      | zero => exact List.Forall₂.cons (by simpa using hx) hrest
      | succ j =>
          exact List.Forall₂.cons hR (ih j (by simpa using hx))

/-! ### lastIdxOf lemmas -/

theorem lastIdxOf_cons (r : Record) (rest : List Record) (id : String) :
    lastIdxOf (r :: rest) id =
      match lastIdxOf rest id with
      | some i => some (i + 1)
      | none => if alget r "match_id" = some id then some 0 else none := rfl

theorem lastIdxOf_spec (l : List Record) (id : String) (i : Nat)
    (h : lastIdxOf l id = some i) :
    i < l.length ∧ alget (l.getD i []) "match_id" = some id := by
  induction l generalizing i with
  | nil => simp [lastIdxOf] at h
  | cons r rest ih =>
      rw [lastIdxOf_cons] at h
      cases hr : lastIdxOf rest id with
      | some j =>
          rw [hr] at h
          simp only [Option.some.injEq] at h
          subst h
          obtain ⟨hlt, hget⟩ := ih j hr
          exact ⟨by simpa using Nat.succ_lt_succ hlt, by simpa using hget⟩
      | none =>
          rw [hr] at h
          by_cases hm : alget r "match_id" = some id
          · rw [if_pos hm] at h
            simp only [Option.some.injEq] at h
            subst h
            simpa using hm
          · rw [if_neg hm] at h
            simp at h

theorem lastIdxOf_none_iff (l : List Record) (id : String) :
    lastIdxOf l id = none ↔ ∀ r ∈ l, alget r "match_id" ≠ some id := by
  induction l with
  | nil => simp [lastIdxOf]
  | cons r rest ih =>
      rw [lastIdxOf_cons]
      cases hr : lastIdxOf rest id with
      | some j =>
          apply iff_of_false (by simp)
          intro h
          have hnone : lastIdxOf rest id = none :=
            ih.mpr (fun r' hm => h r' (List.mem_cons_of_mem _ hm))
          rw [hr] at hnone
          exact absurd hnone (by simp)
      | none =>
          by_cases hm : alget r "match_id" = some id
          · apply iff_of_false (by simp [hm])
            intro h
            exact h r (List.mem_cons_self r rest) hm
          · simp [hm]
            exact ih.mp hr

theorem lastIdxOf_append (l₁ l₂ : List Record) (id : String) :
    lastIdxOf (l₁ ++ l₂) id =
      match lastIdxOf l₂ id with
      | some j => some (l₁.length + j)
      | none => lastIdxOf l₁ id := by
  induction l₁ with
  | nil => cases h : lastIdxOf l₂ id <;> simp [h, lastIdxOf]
  | cons r rest ih =>
      simp only [List.cons_append, lastIdxOf_cons, ih]
      cases h : lastIdxOf l₂ id <;> cases h' : lastIdxOf rest id <;>
        simp [h, h'] <;> try omega

theorem lastIdxOf_congr {l l' : List Record} (h : List.Forall₂ sameId l l')
    (id : String) : lastIdxOf l id = lastIdxOf l' id := by
  induction h with
  | nil => rfl
  | cons hR hrest ih =>
      rw [lastIdxOf_cons, lastIdxOf_cons, ih, hR]

theorem lastIdxOf_append_singleton (l : List Record) (r : Record) (id : String)
    (h : alget r "match_id" = some id) :
    lastIdxOf (l ++ [r]) id = some l.length := by
  rw [lastIdxOf_append]
  simp [lastIdxOf, h]

theorem lastIdxOf_append_singleton_ne (l : List Record) (r : Record) (id : String)
    (h : alget r "match_id" ≠ some id) :
    lastIdxOf (l ++ [r]) id = lastIdxOf l id := by
  rw [lastIdxOf_append]
  simp [lastIdxOf, h]

theorem mem_idsOf_iff (l : List Record) (id : String) :
    id ∈ idsOf l ↔ ∃ r ∈ l, alget r "match_id" = some id := by
  unfold idsOf
  simp [List.mem_filterMap]

theorem lastIdxOf_none_iff_not_mem (l : List Record) (id : String) :
    lastIdxOf l id = none ↔ id ∉ idsOf l := by
  rw [lastIdxOf_none_iff, mem_idsOf_iff]
  push_neg
  rfl

theorem idsOf_set_sameId (l : List Record) (i : Nat) (x : Record)
    (hi : i < l.length) (hx : sameId (l.getD i []) x) :
    idsOf (l.set i x) = idsOf l := by
  induction l generalizing i with
  | nil => simp at hi
  | cons a rest ih =>
      cases i with
      | zero =>
          unfold idsOf at *
          simp only [List.set_cons_zero, List.filterMap_cons]
          unfold sameId at hx
          simp only [List.getD_cons_zero] at hx
          rw [← hx]
      | succ j =>
          unfold idsOf at *
          simp only [List.set_cons_succ, List.filterMap_cons]
          have := ih j (by simpa using hi) (by simpa using hx)
          cases alget a "match_id" <;> simp [this]

/-! ### Merge-step lemmas -/

theorem skip_not_odd : ∀ k ∈ skipKeys, strStartsWith k "odd_" = false := by decide

theorem exists_mem_cons_of_neg {α : Type} {P : α → Prop} {a : α} {l : List α}
    (ha : ¬ P a) : (∃ x ∈ a :: l, P x) ↔ ∃ x ∈ l, P x := by
  constructor
  · rintro ⟨x, hx, px⟩
    rcases List.mem_cons.mp hx with h | h
    · exact absurd (h ▸ px) ha
    · exact ⟨x, h, px⟩
  · rintro ⟨x, hx, px⟩
    exact ⟨x, List.mem_cons_of_mem _ hx, px⟩

theorem stepScore_fst_frame (new : Record) (acc : Record × Bool) (k : String)
    (h : k ≠ "score") : alget (stepScore new acc).1 k = alget acc.1 k := by
  unfold stepScore
  cases alget new "score" with
  | none => rfl
  | some v =>
      by_cases he : alget acc.1 "score" = some v
      · simp [he]
      · simp [he, alget_alset_ne _ _ _ _ h]

theorem stepScores_fst_frame (new : Record) (acc : Record × Bool) (k : String)
    (h : k ≠ "scores") : alget (stepScores new acc).1 k = alget acc.1 k := by
  unfold stepScores
  cases alget new "scores" with
  | none => rfl
  | some v =>
      by_cases he : alget acc.1 "scores" = some v
      · simp [he]
      · simp [he, alget_alset_ne _ _ _ _ h]

theorem stepStatus_fst_frame (new : Record) (acc : Record × Bool) (k : String)
    (h : k ≠ "status") : alget (stepStatus new acc).1 k = alget acc.1 k := by
  unfold stepStatus
  cases alget new "status" with
  | none => rfl
  | some v =>
      by_cases he : alget acc.1 "status" = some v
      · simp [he]
      · simp [he, alget_alset_ne _ _ _ _ h]

theorem stepScore_absorb (new : Record) (acc : Record × Bool) (v : String)
    (h : alget new "score" = some v) : alget (stepScore new acc).1 "score" = some v := by
  unfold stepScore
  rw [h]
  by_cases he : alget acc.1 "score" = some v
  · simp [he]
  · simp [he, alget_alset_self]

theorem stepScores_absorb (new : Record) (acc : Record × Bool) (v : String)
    (h : alget new "scores" = some v) : alget (stepScores new acc).1 "scores" = some v := by
  unfold stepScores
  rw [h]
  by_cases he : alget acc.1 "scores" = some v
  · simp [he]
  · simp [he, alget_alset_self]

theorem stepStatus_absorb (new : Record) (acc : Record × Bool) (v : String)
    (h : alget new "status" = some v) : alget (stepStatus new acc).1 "status" = some v := by
  unfold stepStatus
  rw [h]
  by_cases he : alget acc.1 "status" = some v
  · simp [he]
  · simp [he, alget_alset_self]

theorem stepScore_miss (new : Record) (acc : Record × Bool)
    (h : alget new "score" = none) : stepScore new acc = acc := by
  unfold stepScore
  rw [h]

theorem stepScores_miss (new : Record) (acc : Record × Bool)
    (h : alget new "scores" = none) : stepScores new acc = acc := by
  unfold stepScores
  rw [h]

theorem stepStatus_miss (new : Record) (acc : Record × Bool)
    (h : alget new "status" = none) : stepStatus new acc = acc := by
  unfold stepStatus
  rw [h]

theorem stepScores_snd (new : Record) (acc : Record × Bool) :
    (stepScores new acc).2 = acc.2 := by
  unfold stepScores
  cases alget new "scores" with
  | none => rfl
  | some v =>
      by_cases he : alget acc.1 "scores" = some v
      · simp [he]
      · simp [he]

theorem stepScore_snd_iff (new : Record) (acc : Record × Bool) :
    ((stepScore new acc).2 = true ↔
      acc.2 = true ∨ ∃ v, alget new "score" = some v ∧ alget acc.1 "score" ≠ some v) := by
  unfold stepScore
  cases hv : alget new "score" with
  | none => simp
  | some v =>
      by_cases he : alget acc.1 "score" = some v
      · simp only [if_pos he]
        constructor
        · exact Or.inl
        · rintro (h | ⟨v', hv', hne⟩)
          · exact h
          · obtain rfl : v' = v := by injection hv' with h; exact h.symm
            exact absurd he hne
      · simp only [if_neg he]
        exact iff_of_true (by simp) (Or.inr ⟨v, rfl, he⟩)

theorem stepStatus_snd_iff (new : Record) (acc : Record × Bool) :
    ((stepStatus new acc).2 = true ↔
      acc.2 = true ∨ ∃ v, alget new "status" = some v ∧ alget acc.1 "status" ≠ some v) := by
  unfold stepStatus
  cases hv : alget new "status" with
  | none => simp
  | some v =>
      by_cases he : alget acc.1 "status" = some v
      · simp only [if_pos he]
        constructor
        · exact Or.inl
        · rintro (h | ⟨v', hv', hne⟩)
          · exact h
          · obtain rfl : v' = v := by injection hv' with h; exact h.symm
            exact absurd he hne
      · simp only [if_neg he]
        exact iff_of_true (by simp) (Or.inr ⟨v, rfl, he⟩)

/-! ### Field-loop (foldl updOther) lemmas -/

theorem updOther_fst_frame (acc : Record × Bool) (kv : String × String) (k : String)
    (h : k ≠ kv.1) : alget (updOther acc kv).1 k = alget acc.1 k := by
  unfold updOther
  split_ifs <;> simp [alget_alset_ne _ _ _ _ h]

theorem fold_frame (l : List (String × String)) (acc : Record × Bool) (k : String)
    (h : k ∉ l.map Prod.fst) :
    alget (List.foldl updOther acc l).1 k = alget acc.1 k := by
  induction l generalizing acc with
  | nil => rfl
  | cons a rest ih =>
      simp only [List.map_cons, List.mem_cons] at h
      push_neg at h
      rw [List.foldl_cons, ih _ h.2, updOther_fst_frame _ _ _ h.1]

theorem updOther_skip (acc : Record × Bool) (kv : String × String)
    (h : kv.1 ∈ skipKeys) : updOther acc kv = acc := by
  unfold updOther
  rw [if_pos h]

theorem fold_skip_frame (l : List (String × String)) (acc : Record × Bool) (k : String)
    (h : k ∈ skipKeys) :
    alget (List.foldl updOther acc l).1 k = alget acc.1 k := by
  induction l generalizing acc with
  | nil => rfl
  | cons a rest ih =>
      rw [List.foldl_cons, ih]
      by_cases ha : a.1 ∈ skipKeys
      · rw [updOther_skip _ _ ha]
      · have : k ≠ a.1 := fun he => ha (he ▸ h)
        rw [updOther_fst_frame _ _ _ this]

theorem updOther_snd_mono (acc : Record × Bool) (kv : String × String)
    (h : acc.2 = true) : (updOther acc kv).2 = true := by
  unfold updOther
  split_ifs <;> simp [h]

theorem fold_snd_mono (l : List (String × String)) (acc : Record × Bool)
    (h : acc.2 = true) : (List.foldl updOther acc l).2 = true := by
  induction l generalizing acc with
  | nil => exact h
  | cons a rest ih => exact ih _ (updOther_snd_mono _ _ h)

theorem fold_absorbs (l : List (String × String)) (acc : Record × Bool)
    (hn : (l.map Prod.fst).Nodup) :
    ∀ kv ∈ l, kv.1 ∉ skipKeys → alget (List.foldl updOther acc l).1 kv.1 = some kv.2 := by
  induction l generalizing acc with
  | nil => simp
  | cons a rest ih =>
      simp only [List.map_cons, List.nodup_cons] at hn
      intro kv hkv hskip
      rcases List.mem_cons.mp hkv with h | h
      · subst h
        rw [List.foldl_cons, fold_frame _ _ _ (by simpa using hn.1)]
        unfold updOther
        rw [if_neg hskip]
        by_cases hodd : strStartsWith kv.1 "odd_" = true
        · rw [if_pos hodd]
          by_cases he : alget acc.1 kv.1 = some kv.2
          · rw [if_pos he]; exact he
          · rw [if_neg he]; exact alget_alset_self _ _ _
        · rw [if_neg hodd]
          by_cases he : alget acc.1 kv.1 = some kv.2
          · rw [if_pos he]; exact he
          · rw [if_neg he]; exact alget_alset_self _ _ _
      · rw [List.foldl_cons]
        exact ih _ hn.2 kv h hskip

theorem fold_id (l : List (String × String)) (acc : Record × Bool)
    (h : ∀ kv ∈ l, alget acc.1 kv.1 = some kv.2) :
    List.foldl updOther acc l = acc := by
  induction l generalizing acc with
  | nil => rfl
  | cons a rest ih =>
      have hstep : updOther acc a = acc := by
        unfold updOther
        split_ifs with h1 h2 h3 h4
        · rfl
        · rfl
        · exact absurd (h a (List.mem_cons_self a rest)) h3
        · rfl
        · exact absurd (h a (List.mem_cons_self a rest)) h4
      rw [List.foldl_cons, hstep]
      exact ih _ (fun kv hkv => h kv (List.mem_cons_of_mem _ hkv))

theorem fold_flag_iff (e : Record) (l : List (String × String)) (acc : Record × Bool)
    (hn : (l.map Prod.fst).Nodup)
    (hsame : ∀ kv ∈ l, kv.1 ∉ skipKeys → alget acc.1 kv.1 = alget e kv.1) :
    ((List.foldl updOther acc l).2 = true ↔
      acc.2 = true ∨ ∃ kv ∈ l, strStartsWith kv.1 "odd_" = true ∧ alget e kv.1 ≠ some kv.2) := by
  induction l generalizing acc with
  | nil => simp
  | cons a rest ih =>
      simp only [List.map_cons, List.nodup_cons] at hn
      rw [List.foldl_cons]
      by_cases hskip : a.1 ∈ skipKeys
      · have hodd := skip_not_odd a.1 hskip
        rw [updOther_skip _ _ hskip,
          ih _ hn.2 (fun kv hkv hs => hsame kv (List.mem_cons_of_mem _ hkv) hs),
          exists_mem_cons_of_neg (by simp [hodd])]
      · by_cases hodd : strStartsWith a.1 "odd_" = true
        · by_cases he : alget acc.1 a.1 = some a.2
          · have hstep : updOther acc a = acc := by
              unfold updOther
              rw [if_neg hskip, if_pos hodd, if_pos he]
            have hea : alget e a.1 = some a.2 :=
              (hsame a (List.mem_cons_self a rest) hskip) ▸ he
            rw [hstep, ih _ hn.2 (fun kv hkv hs => hsame kv (List.mem_cons_of_mem _ hkv) hs),
              exists_mem_cons_of_neg (by simp [hea])]
          · have hstep : updOther acc a = (alset acc.1 a.1 a.2, true) := by
              unfold updOther
              rw [if_neg hskip, if_pos hodd, if_neg he]
            rw [hstep]
            apply iff_of_true (fold_snd_mono _ _ rfl)
            exact Or.inr ⟨a, List.mem_cons_self a rest,
              hodd, (hsame a (List.mem_cons_self a rest) hskip) ▸ he⟩
        · by_cases he : alget acc.1 a.1 = some a.2
          · have hstep : updOther acc a = acc := by
              unfold updOther
              rw [if_neg hskip, if_neg hodd, if_pos he]
            rw [hstep, ih _ hn.2 (fun kv hkv hs => hsame kv (List.mem_cons_of_mem _ hkv) hs),
              exists_mem_cons_of_neg (by simp [hodd])]
          · have hstep : updOther acc a = (alset acc.1 a.1 a.2, acc.2) := by
              unfold updOther
              rw [if_neg hskip, if_neg hodd, if_neg he]
            rw [hstep, ih _ hn.2 (fun kv hkv hs => by
              rw [show alget (alset acc.1 a.1 a.2) kv.1 = alget acc.1 kv.1 from
                alget_alset_ne _ _ _ _ (fun hh => hn.1 (hh ▸ (List.mem_map.mpr ⟨kv, hkv, rfl⟩)))]
              exact hsame kv (List.mem_cons_of_mem _ hkv) hs),
              exists_mem_cons_of_neg (by simp [hodd])]

/-! ### update_match_odds lemmas -/

theorem update_eq_some (e r : Record) (p : Record × Bool)
    (h : update_match_odds e r = some p) :
    ∃ ts, alget r "timestamp" = some ts ∧
      p = List.foldl updOther
        (stepStatus r (stepScores r (stepScore r (alset e "timestamp" ts, false)))) r := by
  unfold update_match_odds at h
  cases hts : alget r "timestamp" with
  | none => rw [hts] at h; cases h
  | some ts =>
      rw [hts] at h
      refine ⟨ts, rfl, ?_⟩
      injection h with h
      exact h.symm

theorem update_isSome (e r : Record) (hts : (alget r "timestamp").isSome) :
    ∃ p, update_match_odds e r = some p := by
  unfold update_match_odds
  cases h : alget r "timestamp" with
  | none => rw [h] at hts; cases hts
  | some ts => exact ⟨_, rfl⟩

theorem update_matchid (e r : Record) (p : Record × Bool)
    (h : update_match_odds e r = some p) :
    alget p.1 "match_id" = alget e "match_id" := by
  obtain ⟨ts, hts, hp⟩ := update_eq_some e r p h
  subst hp
  rw [fold_skip_frame _ _ _ (by decide),
    stepStatus_fst_frame _ _ _ (by decide),
    stepScores_fst_frame _ _ _ (by decide),
    stepScore_fst_frame _ _ _ (by decide),
    alget_alset_ne _ _ _ _ (by decide)]

theorem update_absorbs (e r : Record) (p : Record × Bool) (hn : keysNodup r)
    (h : update_match_odds e r = some p) :
    ∀ k v, k ≠ "match_id" → alget r k = some v → alget p.1 k = some v := by
  obtain ⟨ts, hts, hp⟩ := update_eq_some e r p h
  subst hp
  intro k v hkm hk
  by_cases h1 : k = "timestamp"
  · subst h1
    rw [fold_skip_frame _ _ _ (by decide),
      stepStatus_fst_frame _ _ _ (by decide),
      stepScores_fst_frame _ _ _ (by decide),
      stepScore_fst_frame _ _ _ (by decide),
      alget_alset_self]
    rw [hts] at hk
    exact hk
  by_cases h2 : k = "score"
  · subst h2
    rw [fold_skip_frame _ _ _ (by decide),
      stepStatus_fst_frame _ _ _ (by decide),
      stepScores_fst_frame _ _ _ (by decide)]
    exact stepScore_absorb _ _ _ hk
  by_cases h3 : k = "scores"
  · subst h3
    rw [fold_skip_frame _ _ _ (by decide),
      stepStatus_fst_frame _ _ _ (by decide)]
    exact stepScores_absorb _ _ _ hk
  by_cases h4 : k = "status"
  · subst h4
    rw [fold_skip_frame _ _ _ (by decide)]
    exact stepStatus_absorb _ _ _ hk
  · have hskip : k ∉ skipKeys := by
      simp [skipKeys, h1, h2, h3, h4, hkm]
    have hn' : (r.map Prod.fst).Nodup := hn
    have := fold_absorbs r
      (stepStatus r (stepScores r (stepScore r (alset e "timestamp" ts, false)))) hn'
      (k, v) (mem_of_alget_eq_some r k v hk) hskip
    exact this

theorem stepScore_frame_of (new : Record) (acc : Record × Bool) (k : String)
    (hk : alget new k = none) : alget (stepScore new acc).1 k = alget acc.1 k := by
  cases hv : alget new "score" with
  | none => rw [stepScore_miss _ _ hv]
  | some v => exact stepScore_fst_frame _ _ _ (fun he => by rw [he, hv] at hk; cases hk)

theorem stepScores_frame_of (new : Record) (acc : Record × Bool) (k : String)
    (hk : alget new k = none) : alget (stepScores new acc).1 k = alget acc.1 k := by
  cases hv : alget new "scores" with
  | none => rw [stepScores_miss _ _ hv]
  | some v => exact stepScores_fst_frame _ _ _ (fun he => by rw [he, hv] at hk; cases hk)

theorem stepStatus_frame_of (new : Record) (acc : Record × Bool) (k : String)
    (hk : alget new k = none) : alget (stepStatus new acc).1 k = alget acc.1 k := by
  cases hv : alget new "status" with
  | none => rw [stepStatus_miss _ _ hv]
  | some v => exact stepStatus_fst_frame _ _ _ (fun he => by rw [he, hv] at hk; cases hk)

theorem update_frame (e r : Record) (p : Record × Bool)
    (h : update_match_odds e r = some p) (k : String)
    (hk : alget r k = none) : alget p.1 k = alget e k := by
  obtain ⟨ts, hts, hp⟩ := update_eq_some e r p h
  subst hp
  have hkm : k ∉ r.map Prod.fst := (alget_none_iff r k).mp hk
  have hkts : k ≠ "timestamp" := fun he => by rw [he, hts] at hk; cases hk
  rw [fold_frame _ _ _ hkm,
    stepStatus_frame_of _ _ _ hk,
    stepScores_frame_of _ _ _ hk,
    stepScore_frame_of _ _ _ hk,
    alget_alset_ne _ _ _ _ hkts]

theorem stepScore_id (new : Record) (acc : Record × Bool) (v : String)
    (hv : alget new "score" = some v) (he : alget acc.1 "score" = some v) :
    stepScore new acc = acc := by
  unfold stepScore
  rw [hv]
  show (if alget acc.1 "score" = some v then acc else (alset acc.1 "score" v, true)) = acc
  rw [if_pos he]

theorem stepScores_id (new : Record) (acc : Record × Bool) (v : String)
    (hv : alget new "scores" = some v) (he : alget acc.1 "scores" = some v) :
    stepScores new acc = acc := by
  unfold stepScores
  rw [hv]
  show (if alget acc.1 "scores" = some v then acc else (alset acc.1 "scores" v, acc.2)) = acc
  rw [if_pos he]

theorem stepStatus_id (new : Record) (acc : Record × Bool) (v : String)
    (hv : alget new "status" = some v) (he : alget acc.1 "status" = some v) :
    stepStatus new acc = acc := by
  unfold stepStatus
  rw [hv]
  show (if alget acc.1 "status" = some v then acc else (alset acc.1 "status" v, true)) = acc
  rw [if_pos he]

theorem update_absorbed_id (e r : Record) (hn : keysNodup r) (ts : String)
    (hts : alget r "timestamp" = some ts)
    (habs : ∀ k v, alget r k = some v → alget e k = some v) :
    update_match_odds e r = some (e, false) := by
  unfold update_match_odds
  rw [hts]
  show some (List.foldl updOther
    (stepStatus r (stepScores r (stepScore r (alset e "timestamp" ts, false)))) r) =
    some (e, false)
  rw [alset_self _ _ _ (habs _ _ hts)]
  have h1 : stepScore r (e, false) = (e, false) := by
    cases hv : alget r "score" with
    | none => exact stepScore_miss _ _ hv
    | some v => exact stepScore_id r (e, false) v hv (habs _ _ hv)
  have h2 : stepScores r (e, false) = (e, false) := by
    cases hv : alget r "scores" with
    | none => exact stepScores_miss _ _ hv
    | some v => exact stepScores_id r (e, false) v hv (habs _ _ hv)
  have h3 : stepStatus r (e, false) = (e, false) := by
    cases hv : alget r "status" with
    | none => exact stepStatus_miss _ _ hv
    | some v => exact stepStatus_id r (e, false) v hv (habs _ _ hv)
  rw [h1, h2, h3,
    fold_id r (e, false) (fun kv hkv => habs _ _ (alget_of_mem_nodup r kv.1 kv.2 hn hkv))]

theorem update_flag_iff (e r : Record) (p : Record × Bool) (hn : keysNodup r)
    (h : update_match_odds e r = some p) :
    (p.2 = true ↔
      (∃ v, alget r "score" = some v ∧ alget e "score" ≠ some v)
      ∨ (∃ v, alget r "status" = some v ∧ alget e "status" ≠ some v)
      ∨ (∃ kv ∈ r, strStartsWith kv.1 "odd_" = true ∧ alget e kv.1 ≠ some kv.2)) := by
  obtain ⟨ts, hts, hp⟩ := update_eq_some e r p h
  subst hp
  have hn' : (r.map Prod.fst).Nodup := hn
  have h1 : ((stepScore r (alset e "timestamp" ts, false)).2 = true ↔
      false = true ∨ ∃ v, alget r "score" = some v ∧
        alget (alset e "timestamp" ts) "score" ≠ some v) :=
    stepScore_snd_iff r (alset e "timestamp" ts, false)
  rw [alget_alset_ne _ _ _ _ (by decide)] at h1
  simp only [Bool.false_eq_true, false_or] at h1
  have h2 : (stepScores r (stepScore r (alset e "timestamp" ts, false))).2 =
      (stepScore r (alset e "timestamp" ts, false)).2 :=
    stepScores_snd r _
  have h3 : ((stepStatus r (stepScores r (stepScore r (alset e "timestamp" ts, false)))).2 = true ↔
      (stepScores r (stepScore r (alset e "timestamp" ts, false))).2 = true ∨
      ∃ v, alget r "status" = some v ∧
        alget (stepScores r (stepScore r (alset e "timestamp" ts, false))).1 "status" ≠ some v) :=
    stepStatus_snd_iff r _
  rw [stepScores_fst_frame _ _ _ (by decide), stepScore_fst_frame _ _ _ (by decide),
    alget_alset_ne _ _ _ _ (by decide)] at h3
  rw [h2, h1] at h3
  have hsame : ∀ kv ∈ r, kv.1 ∉ skipKeys →
      alget (stepStatus r (stepScores r (stepScore r (alset e "timestamp" ts, false)))).1 kv.1 =
        alget e kv.1 := by
    intro kv hkv hs
    simp only [skipKeys, List.mem_cons, List.mem_singleton, not_or] at hs
    rw [stepStatus_fst_frame _ _ _ hs.2.2.2.1,
      stepScores_fst_frame _ _ _ hs.2.2.1,
      stepScore_fst_frame _ _ _ hs.2.1,
      alget_alset_ne _ _ _ _ hs.1]
  have hfold := fold_flag_iff e r
    (stepStatus r (stepScores r (stepScore r (alset e "timestamp" ts, false)))) hn' hsame
  rw [hfold, h3, or_assoc]

/-! ### Reconcile-loop lemmas -/

theorem ltake_append_le {α : Type} (l₁ l₂ : List α) (n : Nat) (h : n ≤ l₁.length) :
    (l₁ ++ l₂).take n = l₁.take n := by
  rw [List.take_append_eq_append_take, Nat.sub_eq_zero_of_le h, List.take_zero,
    List.append_nil]

theorem reconcileStep_no_id (orig : List Record)
    (acc : List Record × List String × List Record) (r : Record)
    (h : alget r "match_id" = none) : reconcileStep orig acc r = some acc := by
  unfold reconcileStep
  rw [h]

theorem reconcileStep_created (orig : List Record)
    (acc : List Record × List String × List Record) (r : Record) (id : String)
    (hid : alget r "match_id" = some id) (hnew : lastIdxOf orig id = none) :
    reconcileStep orig acc r = some (acc.1 ++ [r], acc.2.1, acc.2.2 ++ [r]) := by
  unfold reconcileStep
  rw [hid]
  show (match lastIdxOf orig id with
    | some i =>
        match update_match_odds (acc.1.getD i []) r with
        | none => none
        | some (e', ch) =>
            some (acc.1.set i e', (if ch then acc.2.1 ++ [id] else acc.2.1), acc.2.2)
    | none => some (acc.1 ++ [r], acc.2.1, acc.2.2 ++ [r])) = _
  rw [hnew]

theorem reconcileStep_mapped (orig : List Record)
    (acc : List Record × List String × List Record) (r : Record) (id : String)
    (i : Nat) (e' : Record) (ch : Bool)
    (hid : alget r "match_id" = some id) (hi : lastIdxOf orig id = some i)
    (hu : update_match_odds (acc.1.getD i []) r = some (e', ch)) :
    reconcileStep orig acc r =
      some (acc.1.set i e', (if ch then acc.2.1 ++ [id] else acc.2.1), acc.2.2) := by
  unfold reconcileStep
  rw [hid]
  show (match lastIdxOf orig id with
    | some i =>
        match update_match_odds (acc.1.getD i []) r with
        | none => none
        | some (e', ch) =>
            some (acc.1.set i e', (if ch then acc.2.1 ++ [id] else acc.2.1), acc.2.2)
    | none => some (acc.1 ++ [r], acc.2.1, acc.2.2 ++ [r])) = _
  rw [hi]
  show (match update_match_odds (acc.1.getD i []) r with
    | none => none
    | some (e', ch) =>
        some (acc.1.set i e', (if ch then acc.2.1 ++ [id] else acc.2.1), acc.2.2)) = _
  rw [hu]

theorem reconcileStep_mapped_fail (orig : List Record)
    (acc : List Record × List String × List Record) (r : Record) (id : String)
    (i : Nat)
    (hid : alget r "match_id" = some id) (hi : lastIdxOf orig id = some i)
    (hu : update_match_odds (acc.1.getD i []) r = none) :
    reconcileStep orig acc r = none := by
  unfold reconcileStep
  rw [hid]
  show (match lastIdxOf orig id with
    | some i =>
        match update_match_odds (acc.1.getD i []) r with
        | none => none
        | some (e', ch) =>
            some (acc.1.set i e', (if ch then acc.2.1 ++ [id] else acc.2.1), acc.2.2)
    | none => some (acc.1 ++ [r], acc.2.1, acc.2.2 ++ [r])) = _
  rw [hi]
  show (match update_match_odds (acc.1.getD i []) r with
    | none => none
    | some (e', ch) =>
        some (acc.1.set i e', (if ch then acc.2.1 ++ [id] else acc.2.1), acc.2.2)) = _
  rw [hu]

theorem newIds_cons_no_id (orig : List Record) (r : Record) (rest : List Record)
    (h : alget r "match_id" = none) : newIds orig (r :: rest) = newIds orig rest := by
  unfold newIds idsOf
  rw [List.filterMap_cons, h]

theorem newIds_cons_mapped (orig : List Record) (r : Record) (rest : List Record)
    (id : String) (hid : alget r "match_id" = some id) (i : Nat)
    (hi : lastIdxOf orig id = some i) : newIds orig (r :: rest) = newIds orig rest := by
  unfold newIds idsOf
  rw [List.filterMap_cons, hid]
  simp [List.filter_cons, hi]

theorem newIds_cons_created (orig : List Record) (r : Record) (rest : List Record)
    (id : String) (hid : alget r "match_id" = some id)
    (hnew : lastIdxOf orig id = none) :
    newIds orig (r :: rest) = id :: newIds orig rest := by
  unfold newIds idsOf
  rw [List.filterMap_cons, hid]
  simp [List.filter_cons, hnew]

theorem sameId_orig_slot {orig store : List Record} (i : Nat)
    (h2 : List.Forall₂ sameId orig (store.take orig.length))
    (hi : i < orig.length) :
    alget (orig.getD i []) "match_id" = alget (store.getD i []) "match_id" := by
  have := forall2_getD h2 i [] [] hi
  rwa [lgetD_take _ _ _ _ hi] at this

theorem fold_idsOf : ∀ (snap orig store : List Record) (ch : List String)
    (cr : List Record) (st' : List Record) (ch' : List String) (cr' : List Record),
    orig.length ≤ store.length →
    List.Forall₂ sameId orig (store.take orig.length) →
    snap.foldlM (reconcileStep orig) (store, ch, cr) = some (st', ch', cr') →
    idsOf st' = idsOf store ++ newIds orig snap := by
  intro snap
  induction snap with
  | nil =>
      intro orig store ch cr st' ch' cr' _ _ hfold
      simp only [List.foldlM_nil] at hfold
      injection hfold with hfold
      have h1 : store = st' := congrArg Prod.fst hfold
      rw [← h1]
      simp [newIds, idsOf]
  | cons r rest ih =>
      intro orig store ch cr st' ch' cr' hle h2 hfold
      rw [List.foldlM_cons] at hfold
      cases hid : alget r "match_id" with
      | none =>
          rw [reconcileStep_no_id orig (store, ch, cr) r hid] at hfold
          simp only [Option.bind_eq_bind, Option.some_bind] at hfold
          rw [newIds_cons_no_id _ _ _ hid]
          exact ih orig store ch cr st' ch' cr' hle h2 hfold
      | some id =>
          cases hli : lastIdxOf orig id with
          | some i =>
              obtain ⟨hilt, hslot⟩ := lastIdxOf_spec orig id i hli
              cases hu : update_match_odds (store.getD i []) r with
              | none =>
                  rw [reconcileStep_mapped_fail orig (store, ch, cr) r id i hid hli hu] at hfold
                  simp only [Option.bind_eq_bind, Option.none_bind] at hfold
                  cases hfold
              | some p =>
                  obtain ⟨e', chb⟩ := p
                  rw [reconcileStep_mapped orig (store, ch, cr) r id i e' chb hid hli hu] at hfold
                  simp only [Option.bind_eq_bind, Option.some_bind] at hfold
                  have hmid : alget e' "match_id" = alget (store.getD i []) "match_id" :=
                    update_matchid _ _ _ hu
                  have hilt' : i < store.length := Nat.lt_of_lt_of_le hilt hle
                  have hset : idsOf (store.set i e') = idsOf store :=
                    idsOf_set_sameId store i e' hilt' hmid.symm
                  have htake : List.Forall₂ sameId orig ((store.set i e').take orig.length) := by
                    rw [ltake_set _ _ _ _ hilt]
                    apply forall2_set_right h2 i e' []
                    unfold sameId
                    rw [hmid]
                    exact sameId_orig_slot i h2 hilt
                  have := ih orig (store.set i e')
                    (if chb then ch ++ [id] else ch) cr st' ch' cr'
                    (by rw [List.length_set]; exact hle) htake hfold
                  rw [this, hset, newIds_cons_mapped _ _ _ _ hid _ hli]
          | none =>
              rw [reconcileStep_created orig (store, ch, cr) r id hid hli] at hfold
              simp only [Option.bind_eq_bind, Option.some_bind] at hfold
              have htake : List.Forall₂ sameId orig ((store ++ [r]).take orig.length) := by
                rw [ltake_append_le _ _ _ hle]
                exact h2
              have := ih orig (store ++ [r]) ch (cr ++ [r]) st' ch' cr'
                (by rw [List.length_append]; omega) htake hfold
              rw [this, newIds_cons_created _ _ _ _ hid hli]
              unfold idsOf
              rw [List.filterMap_append]
              simp [hid]

theorem idsOf_append (l₁ l₂ : List Record) : idsOf (l₁ ++ l₂) = idsOf l₁ ++ idsOf l₂ := by
  unfold idsOf
  rw [List.filterMap_append]

theorem idsOf_cons_some (r : Record) (l : List Record) (id : String)
    (h : alget r "match_id" = some id) : idsOf (r :: l) = id :: idsOf l := by
  unfold idsOf
  rw [List.filterMap_cons, h]

theorem idsOf_cons_none (r : Record) (l : List Record)
    (h : alget r "match_id" = none) : idsOf (r :: l) = idsOf l := by
  unfold idsOf
  rw [List.filterMap_cons, h]

theorem ldrop_append_le {α : Type} (l₁ l₂ : List α) (n : Nat) (h : n ≤ l₁.length) :
    (l₁ ++ l₂).drop n = l₁.drop n ++ l₂ := by
  rw [List.drop_append_eq_append_drop, Nat.sub_eq_zero_of_le h, List.drop_zero]

theorem forall2_sameId_refl (l : List Record) : List.Forall₂ sameId l l :=
  List.forall₂_same.mpr (fun _ _ => rfl)

theorem lastIdxOf_store_eq (orig store : List Record) (id : String)
    (h2 : List.Forall₂ sameId orig (store.take orig.length))
    (hdrop : ∀ q ∈ store.drop orig.length, alget q "match_id" ≠ some id) :
    lastIdxOf store id = lastIdxOf orig id := by
  conv_lhs => rw [← List.take_append_drop orig.length store]
  rw [lastIdxOf_append, (lastIdxOf_none_iff _ _).mpr hdrop]
  exact (lastIdxOf_congr h2 id).symm

theorem absorbed_of_untouched (st st' : List Record) (p : Record)
    (hp : Absorbed st p)
    (hidx : ∀ idp ip, alget p "match_id" = some idp → lastIdxOf st idp = some ip →
        lastIdxOf st' idp = some ip ∧ st'.getD ip [] = st.getD ip []) :
    Absorbed st' p := by
  intro idp hidp
  obtain ⟨ip, hip, habs⟩ := hp idp hidp
  obtain ⟨ha, hb⟩ := hidx idp ip hidp hip
  exact ⟨ip, ha, fun k v hk => hb ▸ habs k v hk⟩

theorem fold_absorbed : ∀ (snap orig store : List Record) (ch : List String)
    (cr : List Record) (P : List Record) (st' : List Record) (ch' : List String)
    (cr' : List Record),
    orig.length ≤ store.length →
    List.Forall₂ sameId orig (store.take orig.length) →
    (idsOf (P ++ snap)).Nodup →
    (∀ p ∈ P, Absorbed store p) →
    (∀ q ∈ store.drop orig.length, ∀ idq, alget q "match_id" = some idq → idq ∈ idsOf P) →
    (∀ q ∈ snap, keysNodup q) →
    snap.foldlM (reconcileStep orig) (store, ch, cr) = some (st', ch', cr') →
    (∀ p ∈ P, Absorbed st' p) ∧
    (∀ q ∈ snap, (alget q "match_id").isSome → Absorbed st' q) := by
  intro snap
  induction snap with
  | nil =>
      intro orig store ch cr P st' ch' cr' _ _ _ hP _ _ hfold
      simp only [List.foldlM_nil] at hfold
      injection hfold with hfold
      have h1 : store = st' := congrArg Prod.fst hfold
      constructor
      · intro p hp
        rw [← h1]
        exact hP p hp
      · intro q hq
        simp at hq
  | cons r rest ih =>
      intro orig store ch cr P st' ch' cr' hle h2 hnodup hP hdrop hwf hfold
      rw [List.foldlM_cons] at hfold
      cases hid : alget r "match_id" with
      | none =>
          rw [reconcileStep_no_id orig (store, ch, cr) r hid] at hfold
          simp only [Option.bind_eq_bind, Option.some_bind] at hfold
          have hnodup' : (idsOf (P ++ rest)).Nodup := by
            rw [idsOf_append, idsOf_cons_none r rest hid] at hnodup
            rw [idsOf_append]
            exact hnodup
          obtain ⟨ha, hb⟩ := ih orig store ch cr P st' ch' cr' hle h2 hnodup' hP hdrop
            (fun q hq => hwf q (List.mem_cons_of_mem _ hq)) hfold
          refine ⟨ha, fun q hq hqid => ?_⟩
          rcases List.mem_cons.mp hq with he | he
          · subst he
            rw [hid] at hqid
            simp at hqid
          · exact hb q he hqid
      | some id =>
          have hnodup1 : (idsOf P ++ id :: idsOf rest).Nodup := by
            rw [idsOf_append, idsOf_cons_some r rest id hid] at hnodup
            exact hnodup
          have hidP : id ∉ idsOf P := by
            rcases List.nodup_append.mp hnodup1 with ⟨_, _, hdisj⟩
            intro hin
            exact hdisj hin (List.mem_cons_self id _)
          have hidsP' : idsOf (P ++ [r]) = idsOf P ++ [id] := by
            rw [idsOf_append, idsOf_cons_some r [] id hid]
            rfl
          have hnodupP' : (idsOf ((P ++ [r]) ++ rest)).Nodup := by
            rw [idsOf_append, hidsP']
            have heq : (idsOf P ++ [id]) ++ idsOf rest = idsOf P ++ id :: idsOf rest := by
              simp
            rw [heq]
            exact hnodup1
          cases hli : lastIdxOf orig id with
          | some i =>
              obtain ⟨hilt, hslot_orig⟩ := lastIdxOf_spec orig id i hli
              have hilt' : i < store.length := Nat.lt_of_lt_of_le hilt hle
              have hstore_slot : alget (store.getD i []) "match_id" = some id := by
                rw [← sameId_orig_slot i h2 hilt]
                exact hslot_orig
              cases hu : update_match_odds (store.getD i []) r with
              | none =>
                  rw [reconcileStep_mapped_fail orig (store, ch, cr) r id i hid hli hu] at hfold
                  simp only [Option.bind_eq_bind, Option.none_bind] at hfold
                  cases hfold
              | some p =>
                  obtain ⟨e', chb⟩ := p
                  rw [reconcileStep_mapped orig (store, ch, cr) r id i e' chb hid hli hu] at hfold
                  simp only [Option.bind_eq_bind, Option.some_bind] at hfold
                  have hmid : alget e' "match_id" = some id :=
                    (update_matchid _ _ _ hu).trans hstore_slot
                  have hsame_st : List.Forall₂ sameId store (store.set i e') := by
                    apply forall2_set_right (forall2_sameId_refl store) i e' []
                    unfold sameId
                    rw [hmid, hstore_slot]
                  have hlast_store : lastIdxOf store id = some i := by
                    have hdr : ∀ q ∈ store.drop orig.length, alget q "match_id" ≠ some id := by
                      intro q hq hc
                      exact hidP (hdrop q hq id hc)
                    rw [lastIdxOf_store_eq orig store id h2 hdr]
                    exact hli
                  have hP' : ∀ p ∈ P ++ [r], Absorbed (store.set i e') p := by
                    intro p hp
                    rcases List.mem_append.mp hp with hpP | hpr
                    · apply absorbed_of_untouched store _ p (hP p hpP)
                      intro idp ip hidp hip
                      have hipspec := lastIdxOf_spec store idp ip hip
                      have hidpP : idp ∈ idsOf P := (mem_idsOf_iff P idp).mpr ⟨p, hpP, hidp⟩
                      have hne : idp ≠ id := fun he => hidP (he ▸ hidpP)
                      have hipi : ip ≠ i := by
                        intro he
                        subst he
                        have hc := hipspec.2.symm.trans hstore_slot
                        injection hc with hc
                        exact hne hc
                      constructor
                      · rw [← lastIdxOf_congr hsame_st idp]
                        exact hip
                      · exact lgetD_set_ne store i ip e' [] (Ne.symm hipi)
                    · have hpr' : p = r := by simpa using hpr
                      rw [hpr']
                      intro idq hidq
                      rw [hid] at hidq
                      injection hidq with hidq
                      subst hidq
                      refine ⟨i, ?_, ?_⟩
                      · rw [← lastIdxOf_congr hsame_st id]
                        exact hlast_store
                      · rw [lgetD_set_self store i e' [] hilt']
                        intro k v hk
                        by_cases hkm : k = "match_id"
                        · subst hkm
                          rw [hmid]
                          rw [hid] at hk
                          exact hk
                        · exact update_absorbs _ _ _
                            (hwf r (List.mem_cons_self r rest)) hu k v hkm hk
                  have hdrop' : ∀ q ∈ (store.set i e').drop orig.length, ∀ idq,
                      alget q "match_id" = some idq → idq ∈ idsOf (P ++ [r]) := by
                    rw [ldrop_set store i orig.length e' hilt]
                    intro q hq idq hqid
                    rw [hidsP']
                    exact List.mem_append_left _ (hdrop q hq idq hqid)
                  obtain ⟨ha, hb⟩ := ih orig (store.set i e')
                    (if chb then ch ++ [id] else ch) cr (P ++ [r]) st' ch' cr'
                    (by rw [List.length_set]; exact hle)
                    (by rw [ltake_set store i orig.length e' hilt]
                        apply forall2_set_right h2 i e' []
                        unfold sameId
                        rw [hmid]
                        exact hslot_orig)
                    hnodupP' hP' hdrop'
                    (fun q hq => hwf q (List.mem_cons_of_mem _ hq)) hfold
                  refine ⟨fun p hp => ha p (List.mem_append_left _ hp),
                    fun q hq hqid => ?_⟩
                  rcases List.mem_cons.mp hq with he | he
                  · subst he
                    exact ha q (List.mem_append_right _ (List.mem_singleton.mpr rfl))
                  · exact hb q he hqid
          | none =>
              rw [reconcileStep_created orig (store, ch, cr) r id hid hli] at hfold
              simp only [Option.bind_eq_bind, Option.some_bind] at hfold
              have hP' : ∀ p ∈ P ++ [r], Absorbed (store ++ [r]) p := by
                intro p hp
                rcases List.mem_append.mp hp with hpP | hpr
                · apply absorbed_of_untouched store _ p (hP p hpP)
                  intro idp ip hidp hip
                  have hidpP : idp ∈ idsOf P := (mem_idsOf_iff P idp).mpr ⟨p, hpP, hidp⟩
                  have hne : idp ≠ id := fun he => hidP (he ▸ hidpP)
                  have hipspec := lastIdxOf_spec store idp ip hip
                  constructor
                  · rw [lastIdxOf_append_singleton_ne store r idp
                      (by rw [hid]
                          intro hc
                          injection hc with hc
                          exact hne hc.symm)]
                    exact hip
                  · exact lgetD_append_left store [r] ip [] hipspec.1
                · have hpr' : p = r := by simpa using hpr
                  rw [hpr']
                  intro idq hidq
                  rw [hid] at hidq
                  injection hidq with hidq
                  subst hidq
                  refine ⟨store.length, lastIdxOf_append_singleton store r id hid, ?_⟩
                  rw [lgetD_append_self]
                  exact fun k v hk => hk
              have hdrop' : ∀ q ∈ (store ++ [r]).drop orig.length, ∀ idq,
                  alget q "match_id" = some idq → idq ∈ idsOf (P ++ [r]) := by
                rw [ldrop_append_le store [r] orig.length hle]
                intro q hq idq hqid
                rcases List.mem_append.mp hq with hq1 | hq2
                · rw [hidsP']
                  exact List.mem_append_left _ (hdrop q hq1 idq hqid)
                · have hqr : q = r := by simpa using hq2
                  rw [hqr] at hqid
                  have hiq : idq = id := by
                    rw [hid] at hqid
                    injection hqid with h
                    exact h.symm
                  subst hiq
                  rw [hidsP']
                  exact List.mem_append_right _ (List.mem_singleton.mpr rfl)
              obtain ⟨ha, hb⟩ := ih orig (store ++ [r]) ch (cr ++ [r]) (P ++ [r]) st' ch' cr'
                (by rw [List.length_append]; omega)
                (by rw [ltake_append_le _ _ _ hle]
                    exact h2)
                hnodupP' hP' hdrop'
                (fun q hq => hwf q (List.mem_cons_of_mem _ hq)) hfold
              refine ⟨fun p hp => ha p (List.mem_append_left _ hp),
                fun q hq hqid => ?_⟩
              rcases List.mem_cons.mp hq with he | he
              · subst he
                exact ha q (List.mem_append_right _ (List.mem_singleton.mpr rfl))
              · exact hb q he hqid

theorem fold_pass2 : ∀ (snap st : List Record) (ch : List String) (cr : List Record),
    (∀ q ∈ snap, keysNodup q ∧ (alget q "timestamp").isSome ∧
      ((alget q "match_id").isSome → Absorbed st q)) →
    snap.foldlM (reconcileStep st) (st, ch, cr) = some (st, ch, cr) := by
  intro snap
  induction snap with
  | nil =>
      intro st ch cr _
      simp
  | cons r rest ih =>
      intro st ch cr h
      obtain ⟨hn, hts, habs⟩ := h r (List.mem_cons_self r rest)
      rw [List.foldlM_cons]
      cases hid : alget r "match_id" with
      | none =>
          rw [reconcileStep_no_id st (st, ch, cr) r hid]
          simp only [Option.bind_eq_bind, Option.some_bind]
          exact ih st ch cr (fun q hq => h q (List.mem_cons_of_mem _ hq))
      | some id =>
          have habs' : Absorbed st r := habs (by rw [hid]; rfl)
          obtain ⟨i, hi, hcontent⟩ := habs' id hid
          obtain ⟨hilt, _⟩ := lastIdxOf_spec st id i hi
          obtain ⟨ts, hts'⟩ := Option.isSome_iff_exists.mp hts
          have hup : update_match_odds (st.getD i []) r = some (st.getD i [], false) :=
            update_absorbed_id (st.getD i []) r hn ts hts' hcontent
          rw [reconcileStep_mapped st (st, ch, cr) r id i (st.getD i []) false hid hi hup]
          simp only [Option.bind_eq_bind, Option.some_bind]
          have hif : (if false then ch ++ [id] else ch) = ch := rfl
          rw [hif, lset_getD_self st i [] hilt]
          exact ih st ch cr (fun q hq => h q (List.mem_cons_of_mem _ hq))

theorem reconcile_idsOf (store snap : List Record) (st' : List Record)
    (ch' : List String) (cr' : List Record)
    (h : reconcile store snap = some (st', ch', cr')) :
    idsOf st' = idsOf store ++ newIds store snap := by
  apply fold_idsOf snap store store [] [] st' ch' cr' (Nat.le_refl _) _ h
  rw [List.take_length]
  exact forall2_sameId_refl store

theorem reconcile_absorbed (store snap : List Record) (st' : List Record)
    (ch' : List String) (cr' : List Record)
    (hwf : ∀ q ∈ snap, keysNodup q)
    (hnodup : (idsOf snap).Nodup)
    (h : reconcile store snap = some (st', ch', cr')) :
    ∀ q ∈ snap, (alget q "match_id").isSome → Absorbed st' q := by
  refine (fold_absorbed snap store store [] [] [] st' ch' cr' (Nat.le_refl _)
    ?_ ?_ ?_ ?_ hwf h).2
  · rw [List.take_length]
    exact forall2_sameId_refl store
  · simpa using hnodup
  · simp
  · simp [List.drop_length]

/-! ### Claim theorems -/

/-- C1 (counterexample): the claim says that on EVERY kind of failed cycle the
counter is reset to 0 after the threshold reset, and that one further failure
cannot immediately re-trigger a reset.  In the fetch-returned-no-content path
the code never resets the counter: five consecutive fetch failures leave the
counter at 5 having emitted one reset, and a sixth fetch failure immediately
emits a second reset. -/
theorem failure_counter_reset_counterexample :
    runFailures (0, 0) (List.replicate 5 CycleOutcome.fetchFailed) = (5, 1) ∧
    runFailures (0, 0) (List.replicate 6 CycleOutcome.fetchFailed) = (6, 2) := by
  constructor
  · rfl
  · rfl

/-- C1 (amended): only the fetch-returned-no-content path can drive the
counter to the threshold; there a reset instruction is emitted but the counter
is left at its incremented value, so every further fetch failure immediately
emits another reset.  An unexpected-error cycle never emits a reset at all:
the counter was reset to 0 after the successful fetch earlier in that cycle,
so the handler always leaves the counter at 1 with no reset instruction.  A
single failure starting from a reset counter emits no reset. -/
theorem failure_counter_reset_amended (c c' : Nat) (o : CycleOutcome) (h : 4 ≤ c) :
    stepFailures c CycleOutcome.fetchFailed = (c + 1, true) ∧
    stepFailures (c + 1) CycleOutcome.fetchFailed = (c + 2, true) ∧
    stepFailures c' CycleOutcome.cycleError = (1, false) ∧
    (stepFailures 0 o).2 = false := by
  have h5 : max_consecutive_errors ≤ c + 1 := by
    unfold max_consecutive_errors
    omega
  have h5' : max_consecutive_errors ≤ c + 1 + 1 := by
    unfold max_consecutive_errors
    omega
  refine ⟨?_, ?_, ?_, ?_⟩
  · show (if max_consecutive_errors ≤ c + 1 then (c + 1, true)
      else (c + 1, false)) = (c + 1, true)
    rw [if_pos h5]
  · show (if max_consecutive_errors ≤ c + 1 + 1 then (c + 1 + 1, true)
      else (c + 1 + 1, false)) = (c + 2, true)
    rw [if_pos h5']
  · rfl
  · cases o <;> rfl

/-- C1 (witness): the amended behaviour at the exact threshold, counter 4,
and an unexpected-error cycle entered with a large stale counter. -/
theorem failure_counter_reset_amended_witness :
    stepFailures 4 CycleOutcome.fetchFailed = (4 + 1, true) ∧
    stepFailures (4 + 1) CycleOutcome.fetchFailed = (4 + 2, true) ∧
    stepFailures 7 CycleOutcome.cycleError = (1, false) ∧
    (stepFailures 0 CycleOutcome.fetchFailed).2 = false :=
  failure_counter_reset_amended 4 7 CycleOutcome.fetchFailed (by decide)

/-- C6 (counterexample): the claim says an entity whose timestamp is exactly
the cutoff is retained; the code keeps a record only when its timestamp is
strictly greater than the cutoff string, so the boundary record is removed. -/
theorem trim_boundary_counterexample :
    cleanup_events [[("timestamp", "2024-01-01 00:00:00")]] "2024-01-01 00:00:00" = [] ∧
    alget [("timestamp", "2024-01-01 00:00:00")] "timestamp" =
      some "2024-01-01 00:00:00" := by
  constructor
  · rfl
  · rfl

/-- C6 (amended): the trim removes entities with `last_seen <= cutoff`: a
record survives the trim exactly when it has no timestamp or its timestamp is
strictly greater than the cutoff (the boundary is inclusive on the removal
side). -/
theorem trim_boundary_amended (events : List Record) (cutoff : String) (m : Record) :
    (m ∈ cleanup_events events cutoff ↔
      m ∈ events ∧ ((alget m "timestamp" = none) ∨
        ∃ ts, alget m "timestamp" = some ts ∧ strLt cutoff ts = true)) := by
  unfold cleanup_events
  by_cases he : events = []
  · subst he
    simp
  · rw [if_neg he, List.mem_filter]
    apply and_congr Iff.rfl
    cases hm : alget m "timestamp" with
    | none => simp
    | some ts => simp

/-- C7: partial-merge frame condition — a field present in the stored entity
but absent from the incoming record keeps its previous value after the merge;
a partial record never erases previously stored data. -/
theorem partial_merge_frame (e r : Record) (e' : Record) (ch : Bool)
    (h : update_match_odds e r = some (e', ch)) (k : String)
    (hk : alget r k = none) : alget e' k = alget e k :=
  update_frame e r (e', ch) h k hk

/-- C7 (witness): merging a record that lacks `odd_1x2_home` leaves the stored
value of that field untouched. -/
theorem partial_merge_frame_witness :
    alget [("match_id", "A"), ("odd_1x2_home", "1.85"), ("timestamp", "t")]
        "odd_1x2_home" =
      alget [("match_id", "A"), ("odd_1x2_home", "1.85")] "odd_1x2_home" :=
  partial_merge_frame [("match_id", "A"), ("odd_1x2_home", "1.85")]
    [("timestamp", "t")]
    [("match_id", "A"), ("odd_1x2_home", "1.85"), ("timestamp", "t")] false
    rfl "odd_1x2_home" rfl

/-- C9: the id derivation is deterministic in the identity fields — when both
team names are available and the identity fields agree, the computed match id
agrees, whatever the mutable fields or the positional index are; the
positional fallback is used only when a team name is unavailable. -/
theorem match_id_deterministic (sport league : String) (m1 m2 : Record)
    (i1 i2 : Nat) (h1 : alget m1 "team1" = alget m2 "team1")
    (h2 : alget m1 "team2" = alget m2 "team2")
    (ht1 : (alget m1 "team1").isSome) (ht2 : (alget m1 "team2").isSome) :
    compute_match_id sport league m1 i1 = compute_match_id sport league m2 i2 := by
  obtain ⟨t1, het1⟩ := Option.isSome_iff_exists.mp ht1
  obtain ⟨t2, het2⟩ := Option.isSome_iff_exists.mp ht2
  unfold compute_match_id
  rw [← h1, ← h2, het1, het2]

/-- C9 (witness): two records with the same teams but different scores and
different positional indices produce the same id. -/
theorem match_id_deterministic_witness :
    compute_match_id "Football" "League1"
        [("team1", "A"), ("team2", "B"), ("score", "0-0")] 0 =
      compute_match_id "Football" "League1"
        [("team1", "A"), ("team2", "B"), ("score", "1-0")] 7 :=
  match_id_deterministic "Football" "League1"
    [("team1", "A"), ("team2", "B"), ("score", "0-0")]
    [("team1", "A"), ("team2", "B"), ("score", "1-0")] 0 7 rfl rfl rfl rfl

/-- C10: a persistence operation called with an empty record list returns
before touching the filesystem — both the CSV and the JSON writers leave every
existing file exactly as it was. -/
theorem empty_save_no_write (data_dir filename : String) (app : Bool)
    (fs : CsvFS) (fsj : JsonFS) :
    save_to_csv data_dir [] filename app fs = fs ∧
    save_to_json data_dir [] filename fsj = fsj := by
  constructor
  · rfl
  · rfl

/-- C3 (counterexample): the claim says an entity is classified `updated` iff
ANY mutable field of the incoming record differs.  A record whose only
difference is the mutable field `start_time` is silently overwritten but the
merge reports no change, so the entity is classified unchanged. -/
theorem updated_iff_diff_counterexample :
    update_match_odds
        [("match_id", "A"), ("timestamp", "t0"), ("start_time", "10:00")]
        [("match_id", "A"), ("timestamp", "t1"), ("start_time", "11:00")] =
      some ([("match_id", "A"), ("timestamp", "t1"), ("start_time", "11:00")], false) ∧
    alget [("match_id", "A"), ("timestamp", "t0"), ("start_time", "10:00")]
        "start_time" ≠
      alget [("match_id", "A"), ("timestamp", "t1"), ("start_time", "11:00")]
        "start_time" := by
  constructor
  · rfl
  · decide

/-- C3 (amended): for a stored entity and an incoming record with
duplicate-free keys, the merge reports `updated` exactly when the incoming
`score`, `status`, or an `odd_`-prefixed field differs from the stored value;
every differing incoming field other than `match_id` (including `scores`,
`start_time` and other non-odds fields, which do not raise the flag) is
nevertheless overwritten in the stored entity. -/
theorem updated_iff_diff_amended (e r : Record) (hn : keysNodup r)
    (e' : Record) (ch : Bool) (h : update_match_odds e r = some (e', ch)) :
    ((ch = true ↔
      (∃ v, alget r "score" = some v ∧ alget e "score" ≠ some v)
      ∨ (∃ v, alget r "status" = some v ∧ alget e "status" ≠ some v)
      ∨ (∃ kv ∈ r, strStartsWith kv.1 "odd_" = true ∧ alget e kv.1 ≠ some kv.2))
    ∧ (∀ k v, k ≠ "match_id" → alget r k = some v → alget e' k = some v)) :=
  ⟨update_flag_iff e r (e', ch) hn h,
    fun k v hk hv => update_absorbs e r (e', ch) hn h k v hk hv⟩

/-- C3 (witness): a score change flags the entity as updated and the incoming
fields are copied into the stored entity. -/
theorem updated_iff_diff_amended_witness :
    (((true : Bool) = true ↔
      (∃ v, alget [("timestamp", "t"), ("score", "1-0")] "score" = some v ∧
        alget [("match_id", "A"), ("score", "0-0")] "score" ≠ some v)
      ∨ (∃ v, alget [("timestamp", "t"), ("score", "1-0")] "status" = some v ∧
        alget [("match_id", "A"), ("score", "0-0")] "status" ≠ some v)
      ∨ (∃ kv ∈ [("timestamp", "t"), ("score", "1-0")],
          strStartsWith kv.1 "odd_" = true ∧
          alget [("match_id", "A"), ("score", "0-0")] kv.1 ≠ some kv.2))
    ∧ (∀ k v, k ≠ "match_id" →
        alget [("timestamp", "t"), ("score", "1-0")] k = some v →
        alget [("match_id", "A"), ("score", "1-0"), ("timestamp", "t")] k = some v)) :=
  updated_iff_diff_amended [("match_id", "A"), ("score", "0-0")]
    [("timestamp", "t"), ("score", "1-0")] (by decide)
    [("match_id", "A"), ("score", "1-0"), ("timestamp", "t")] true rfl

/-- C8 (counterexample): the claim says identity fields are never overwritten
by a merge.  An incoming record with the same id but a different `country`
(the id does not encode the country) overwrites the stored identity field. -/
theorem identity_fields_immutable_counterexample :
    update_match_odds
        [("match_id", "Football_L_3"), ("country", "England"), ("timestamp", "t1")]
        [("match_id", "Football_L_3"), ("country", "France"), ("timestamp", "t2")] =
      some ([("match_id", "Football_L_3"), ("country", "France"), ("timestamp", "t2")],
        false) ∧
    alget [("match_id", "Football_L_3"), ("country", "England"), ("timestamp", "t1")]
        "country" = some "England" := by
  constructor
  · rfl
  · rfl

/-- C8 (amended): the merge protects only the `match_id` key itself; every
other field of the incoming record — identity fields such as league, team
names, sport and country included — is copied over the stored value when it
differs. -/
theorem identity_fields_immutable_amended (e r : Record) (hn : keysNodup r)
    (e' : Record) (ch : Bool) (h : update_match_odds e r = some (e', ch)) :
    (alget e' "match_id" = alget e "match_id" ∧
      ∀ k v, k ≠ "match_id" → alget r k = some v → alget e' k = some v) :=
  ⟨update_matchid e r (e', ch) h,
    fun k v hk hv => update_absorbs e r (e', ch) hn h k v hk hv⟩

/-- C8 (witness): a merge keeps the stored `match_id` and copies the incoming
`team1` identity field over the stored one. -/
theorem identity_fields_immutable_amended_witness :
    (alget [("match_id", "Z"), ("team1", "P"), ("timestamp", "v1")] "match_id" =
      alget [("match_id", "Z"), ("team1", "Q"), ("timestamp", "v0")] "match_id" ∧
    ∀ k v, k ≠ "match_id" →
      alget [("match_id", "Z"), ("team1", "P"), ("timestamp", "v1")] k = some v →
      alget [("match_id", "Z"), ("team1", "P"), ("timestamp", "v1")] k = some v) :=
  identity_fields_immutable_amended
    [("match_id", "Z"), ("team1", "Q"), ("timestamp", "v0")]
    [("match_id", "Z"), ("team1", "P"), ("timestamp", "v1")] (by decide)
    [("match_id", "Z"), ("team1", "P"), ("timestamp", "v1")] false rfl

/-- C2 (counterexample): the claim quantifies over every snapshot.  A snapshot
containing two records with the same id but different fields is NOT
reconciled idempotently: the first pass inserts both records as separate
entities, and the second pass reports the entity as updated and mutates the
store again. -/
theorem reconcile_idempotent_counterexample :
    reconcile []
        [[("match_id", "A"), ("timestamp", "t"), ("score", "1")],
         [("match_id", "A"), ("timestamp", "t")]] =
      some ([[("match_id", "A"), ("timestamp", "t"), ("score", "1")],
             [("match_id", "A"), ("timestamp", "t")]], [],
            [[("match_id", "A"), ("timestamp", "t"), ("score", "1")],
             [("match_id", "A"), ("timestamp", "t")]]) ∧
    reconcile
        [[("match_id", "A"), ("timestamp", "t"), ("score", "1")],
         [("match_id", "A"), ("timestamp", "t")]]
        [[("match_id", "A"), ("timestamp", "t"), ("score", "1")],
         [("match_id", "A"), ("timestamp", "t")]] =
      some ([[("match_id", "A"), ("timestamp", "t"), ("score", "1")],
             [("match_id", "A"), ("timestamp", "t"), ("score", "1")]], ["A"], []) := by
  constructor
  · rfl
  · rfl

/-- C2 (amended): reconciliation is idempotent for every store and every
snapshot whose records have duplicate-free keys and carry a timestamp (both
guaranteed for parser output) and whose match ids are pairwise distinct:
reconciling the same snapshot a second time returns the store unchanged with
empty changed and empty created lists. -/
theorem reconcile_idempotent_amended (store snap : List Record)
    (st1 : List Record) (ch1 : List String) (cr1 : List Record)
    (hwf : ∀ q ∈ snap, keysNodup q ∧ (alget q "timestamp").isSome)
    (hnodup : (idsOf snap).Nodup)
    (h : reconcile store snap = some (st1, ch1, cr1)) :
    reconcile st1 snap = some (st1, [], []) := by
  have habs := reconcile_absorbed store snap st1 ch1 cr1
    (fun q hq => (hwf q hq).1) hnodup h
  unfold reconcile
  exact fold_pass2 snap st1 [] []
    (fun q hq => ⟨(hwf q hq).1, (hwf q hq).2, fun hid => habs q hq hid⟩)

/-- C2 (witness): a concrete second reconciliation of the same snapshot leaves
the store byte-identical and classifies everything unchanged. -/
theorem reconcile_idempotent_amended_witness :
    reconcile [[("match_id", "D"), ("timestamp", "w1"), ("score", "0-0")]]
        [[("match_id", "D"), ("timestamp", "w1"), ("score", "0-0")]] =
      some ([[("match_id", "D"), ("timestamp", "w1"), ("score", "0-0")]], [], []) :=
  reconcile_idempotent_amended []
    [[("match_id", "D"), ("timestamp", "w1"), ("score", "0-0")]]
    [[("match_id", "D"), ("timestamp", "w1"), ("score", "0-0")]] []
    [[("match_id", "D"), ("timestamp", "w1"), ("score", "0-0")]]
    (by decide) (by decide) rfl

/-- C4 (counterexample): a store satisfying the at-most-one-entity-per-id
invariant (the empty store) and a snapshot with two new records sharing an id
yield a store holding TWO entities with that id: the lookup map is built
before the loop, so the second record is also classified new and appended. -/
theorem store_unique_id_counterexample :
    reconcile []
        [[("match_id", "M"), ("timestamp", "t1"), ("odd_1", "2.0")],
         [("match_id", "M"), ("timestamp", "t2")]] =
      some ([[("match_id", "M"), ("timestamp", "t1"), ("odd_1", "2.0")],
             [("match_id", "M"), ("timestamp", "t2")]], [],
            [[("match_id", "M"), ("timestamp", "t1"), ("odd_1", "2.0")],
             [("match_id", "M"), ("timestamp", "t2")]]) ∧
    ¬ (idsOf [[("match_id", "M"), ("timestamp", "t1"), ("odd_1", "2.0")],
              [("match_id", "M"), ("timestamp", "t2")]]).Nodup := by
  constructor
  · rfl
  · decide

/-- C4 (amended): the at-most-one-entity-per-id invariant is preserved by
reconciliation provided the ids of the snapshot records that are new to the
store are pairwise distinct; a snapshot with two new records sharing an id
inserts both and breaks it. -/
theorem store_unique_id_amended (store snap : List Record)
    (st' : List Record) (ch' : List String) (cr' : List Record)
    (hstore : (idsOf store).Nodup) (hnew : (newIds store snap).Nodup)
    (h : reconcile store snap = some (st', ch', cr')) :
    (idsOf st').Nodup := by
  rw [reconcile_idsOf store snap st' ch' cr' h]
  apply List.Nodup.append hstore hnew
  intro id hidP hidN
  unfold newIds at hidN
  obtain ⟨hmem, hnone⟩ := List.mem_filter.mp hidN
  rw [Option.isNone_iff_eq_none] at hnone
  exact (lastIdxOf_none_iff_not_mem store id).mp hnone hidP

/-- C4 (witness): reconciling a snapshot with one known and one fresh id into
a one-entity store keeps the ids duplicate-free. -/
theorem store_unique_id_amended_witness :
    (idsOf [[("match_id", "X"), ("timestamp", "t1")],
            [("match_id", "Y"), ("timestamp", "t1")]]).Nodup :=
  store_unique_id_amended [[("match_id", "X"), ("timestamp", "t0")]]
    [[("match_id", "X"), ("timestamp", "t1")], [("match_id", "Y"), ("timestamp", "t1")]]
    [[("match_id", "X"), ("timestamp", "t1")], [("match_id", "Y"), ("timestamp", "t1")]]
    [] [[("match_id", "Y"), ("timestamp", "t1")]]
    (by decide) (by decide) rfl

/-- C5 (counterexample): when the colliding id is NOT already in the store the
claim fails — there is no single resulting entity: both records are appended,
the store ends with two entities under the id, and the earlier record's
fields survive in the first of them. -/
theorem duplicate_later_wins_counterexample :
    reconcile []
        [[("match_id", "B"), ("timestamp", "u1"), ("score", "0-0")],
         [("match_id", "B"), ("timestamp", "u2"), ("score", "1-0")]] =
      some ([[("match_id", "B"), ("timestamp", "u1"), ("score", "0-0")],
             [("match_id", "B"), ("timestamp", "u2"), ("score", "1-0")]], [],
            [[("match_id", "B"), ("timestamp", "u1"), ("score", "0-0")],
             [("match_id", "B"), ("timestamp", "u2"), ("score", "1-0")]]) ∧
    idsOf [[("match_id", "B"), ("timestamp", "u1"), ("score", "0-0")],
           [("match_id", "B"), ("timestamp", "u2"), ("score", "1-0")]] = ["B", "B"] := by
  constructor
  · rfl
  · rfl

/-- C5 (amended): the later-record-wins rule holds when the colliding id is
already present in the store: both records merge in order into the same store
entry, so after reconciliation that entry carries every field value of the
later record (its created list stays empty); when the id is new, both records
are appended as separate entities instead. -/
theorem duplicate_later_wins_amended (store : List Record) (id : String) (i : Nat)
    (r1 r2 : Record) (hi : lastIdxOf store id = some i)
    (h1 : alget r1 "match_id" = some id) (h2 : alget r2 "match_id" = some id)
    (ht1 : (alget r1 "timestamp").isSome) (ht2 : (alget r2 "timestamp").isSome)
    (hn2 : keysNodup r2) :
    ∃ st' ch', reconcile store [r1, r2] = some (st', ch', []) ∧
      ∀ k v, k ≠ "match_id" → alget r2 k = some v →
        alget (st'.getD i []) k = some v := by
  obtain ⟨hilt, _⟩ := lastIdxOf_spec store id i hi
  obtain ⟨p1, hu1⟩ := update_isSome (store.getD i []) r1 ht1
  obtain ⟨e1, c1⟩ := p1
  obtain ⟨p2, hu2⟩ := update_isSome ((store.set i e1).getD i []) r2 ht2
  obtain ⟨e2, c2⟩ := p2
  unfold reconcile
  rw [List.foldlM_cons, reconcileStep_mapped store (store, [], []) r1 id i e1 c1 h1 hi hu1]
  simp only [Option.bind_eq_bind, Option.some_bind]
  rw [List.foldlM_cons, reconcileStep_mapped store
    (store.set i e1, (if c1 then ([] : List String) ++ [id] else []), ([] : List Record))
    r2 id i e2 c2 h2 hi hu2]
  simp only [Option.bind_eq_bind, Option.some_bind, List.foldlM_nil]
  refine ⟨_, _, rfl, ?_⟩
  rw [lgetD_set_self _ i e2 [] (by rw [List.length_set]; exact hilt)]
  intro k v hk hv
  exact update_absorbs _ _ _ hn2 hu2 k v hk hv

/-- C5 (witness): two colliding records merging into an existing entity leave
the later record's odds in the store entry. -/
theorem duplicate_later_wins_amended_witness :
    ∃ st' ch', reconcile [[("match_id", "C"), ("timestamp", "s0")]]
        [[("match_id", "C"), ("timestamp", "s1"), ("odd_1", "1.5")],
         [("match_id", "C"), ("timestamp", "s2"), ("odd_1", "1.8")]] =
      some (st', ch', []) ∧
      ∀ k v, k ≠ "match_id" →
        alget [("match_id", "C"), ("timestamp", "s2"), ("odd_1", "1.8")] k = some v →
        alget (st'.getD 0 []) k = some v :=
  duplicate_later_wins_amended [[("match_id", "C"), ("timestamp", "s0")]] "C" 0
    [("match_id", "C"), ("timestamp", "s1"), ("odd_1", "1.5")]
    [("match_id", "C"), ("timestamp", "s2"), ("odd_1", "1.8")]
    rfl rfl rfl rfl rfl (by decide)
